import Mathlib

/-!
Shallow embedding of `autogluon/searcher/skopt_searcher.py` (class
`SKoptSearcher`).

Modelling conventions:
* A Python configuration dict is an insertion-ordered association list
  `Config := List (String × Value)`; Python dict assignment is
  overwrite-in-place-or-append (`setKey` / `dictSet`).
* The result store `self._results` (a dict keyed by `json.dumps(config)`
  with scalar values) is `Store := List (String × ℚ)`; rewards and the
  pending marker `0` are rationals.
* `json.dumps` on a dict serializes the entries in their stored order;
  `jsonDumps` reproduces that: it is deterministic and order-sensitive.
* The external skopt optimizer and the ConfigSpace space are oracles in
  an `Env`: `ask n` may return points or raise (`Except`), the space's
  `sample_configuration` draws are the stream `stream 0, stream 1, …`
  threaded by an index `rng`, and `is_valid_configuration` is the
  predicate `isValid` (raising `ValueError` when false).
* The unbounded `while` loops (`random_config`, documented in the source
  as "may loop indefinitely") are modelled with explicit fuel; `none`
  means the loop has not terminated within the fuel.
* Exceptions are explicit: `PyErr.valueError` is what `except ValueError`
  catches; any other exception kind (`indexError`, `otherError`)
  propagates out of `get_config`.
-/

namespace AutoGluon.SKoptSearcher

/-- A JSON-representable hyperparameter value (int, string, or numeric). -/
inductive Value where
  | int (i : Int)
  | str (s : String)
  | rat (q : ℚ)
deriving DecidableEq

/-- A configuration: a Python dict from hyperparameter name to value,
in insertion order (`get_dictionary()` output). -/
abbrev Config := List (String × Value)

/-- A candidate point in skopt format: a list of values, one per
dimension in `hp_ordering` order. -/
abbrev Point := List Value

/-- `self._results`: dict from canonical key (`json.dumps(config)`) to
the stored scalar (0 when pending, the reward after `update`). -/
abbrev Store := List (String × ℚ)

/-- Serialization of a single value, as `json.dumps` renders it. -/
def valueJson : Value → String
  | Value.int i => toString i
  | Value.str s => "\x22" ++ s ++ "\x22"
  | Value.rat q => toString q

/-- `json.dumps(config)`: serializes the dict entries in stored order.
The exact rendering of values is inessential; what matters (and is
faithful to `json.dumps`) is that the output is a deterministic function
of the ordered entry list. -/
def jsonDumps (c : Config) : String :=
  "\x7b" ++ String.intercalate ", "
    (c.map (fun p => valueJson (Value.str p.1) ++ ": " ++ valueJson p.2)) ++ "\x7d"

/-- Python dict lookup `c[k]` on a configuration (first matching entry;
the store discipline keeps keys unique). -/
def lookupV (c : Config) (k : String) : Option Value :=
  match c with
  | [] => none
  | p :: t => if p.1 = k then some p.2 else lookupV t k

/-- Python dict/Configuration assignment `c[k] = v`: overwrite the entry
in place when the key is present, else append. -/
def setKey (c : Config) (k : String) (v : Value) : Config :=
  if c.any (fun p => p.1 = k) then
    c.map (fun p => if p.1 = k then (k, v) else p)
  else
    c ++ [(k, v)]

/-- `key in self._results.keys()`. -/
def containsKey (st : Store) (k : String) : Bool :=
  st.any (fun p => p.1 = k)

/-- Store lookup by canonical key. -/
def lookupR (st : Store) (k : String) : Option ℚ :=
  match st with
  | [] => none
  | p :: t => if p.1 = k then some p.2 else lookupR t k

/-- `self._results[k] = r`: overwrite in place or append. -/
def dictSet (st : Store) (k : String) (r : ℚ) : Store :=
  if st.any (fun p => p.1 = k) then
    st.map (fun p => if p.1 = k then (k, r) else p)
  else
    st ++ [(k, r)]

/-- The ConfigSpace oracle: the fixed hyperparameter ordering
(`configspace.get_hyperparameter_names()`), the default configuration's
dict (`get_default_configuration().get_dictionary()`), and the validity
predicate (`is_valid_configuration()` raises `ValueError` iff false). -/
structure CSpace where
  hpOrdering : List String
  defaultConfig : Config
  isValid : Config → Bool

/-- Exception kinds relevant to `get_config`: `ValueError` is caught by
its `except` clause; everything else propagates. -/
inductive PyErr where
  | valueError
  | indexError
  | otherError
deriving DecidableEq

/-- The environment of one searcher: the space, the skopt optimizer's
`ask` (which may raise), the space's `sample_configuration()` stream,
and the fuel bounding the modelled unbounded loops. -/
structure Env where
  cs : CSpace
  ask : Nat → Except PyErr (List Point)
  stream : Nat → Config
  fuel : Nat

/-- Mutable searcher state: the result store and the index of the next
`sample_configuration()` draw. -/
structure SState where
  results : Store
  rng : Nat
deriving DecidableEq

/-- `config2skopt(config)`: `[config[hp] for hp in self.hp_ordering]`.
A missing key would raise `KeyError` in Python; the `getD` default is
only reachable outside the well-formedness hypotheses used below. -/
def config2skopt (ord : List String) (c : Config) : Point :=
  ord.map (fun hp => (lookupV c hp).getD (Value.int 0))

/-- The assignment loop of `skopt2config`:
`for i in range(len(point)): config[self.hp_ordering[i]] = point[i]`.
`none` models the `IndexError` raised when the point is longer than the
hyperparameter ordering. -/
def assignLoop (sample : Config) : List String → List Value → Option Config
  | _, [] => some sample
  | [], _ :: _ => none
  | k :: ks, v :: vs => assignLoop (setKey sample k v) ks vs

/-- `skopt2config(point)`: start from a fresh random sample
(`configspace.sample_configuration()`, passed explicitly here) and
overwrite position `i` of the ordering with `point[i]`. -/
def skopt2config (cs : CSpace) (sample : Config) (point : Point) : Option Config :=
  assignLoop sample cs.hpOrdering point

/-- `default_config()`: take the space's default, unconditionally store
`0` under its key, return it. -/
def default_config (env : Env) (s : SState) : Config × SState :=
  let c := env.cs.defaultConfig
  (c, ⟨dictSet s.results (jsonDumps c) 0, s.rng⟩)

/-- The rejection-sampling loop of `random_config`: draw
`sample_configuration()` values until one's key is not in the store.
The fuel argument makes the source's unbounded `while` a total
function; `none` means the loop has not exited within the fuel. -/
def randomLoop (results : Store) (stream : Nat → Config) :
    Nat → Nat → Option (Config × Nat)
  | _, 0 => none
  | idx, Nat.succ f =>
    let c := stream idx
    if containsKey results (jsonDumps c) then randomLoop results stream (idx + 1) f
    else some (c, idx + 1)

/-- `random_config()`: rejection-sample until novel, then record `0`
under the new key and return the configuration. -/
def random_config (env : Env) (s : SState) : Option (Config × SState) :=
  match randomLoop s.results env.stream s.rng env.fuel with
  | none => none
  | some (c, idx) => some (c, ⟨dictSet s.results (jsonDumps c) 0, idx⟩)

/-- Outcome of the `try` block of `get_config` before the final
`return self.random_config()` line: a recorded novel configuration, a
fall-through to random search (with or without the `warnings.warn`
emitted by the `except ValueError` handler), or a propagating
non-`ValueError` exception. -/
inductive OptPathOut where
  | found (c : Config) (st : Store) (rng : Nat)
  | fallback (warned : Bool) (rng : Nat)
  | raised (e : PyErr)
deriving DecidableEq

/-- The batch loop of `get_config`: `i = 1; while i < max_tries:` over
`new_points = ask(max_tries)`; note it starts at index 1, skipping the
batch's first point. An invalid decoded configuration raises
`ValueError` (caught upstream: warned fallback); a novel one is
recorded and returned; a duplicate advances `i`. Out-of-range indexing
raises `IndexError` (not caught). The loop condition `i < max_tries`
is carried as the structurally decreasing count `fuel = max_tries - i`
of remaining iterations; `fuel = 0` is the loop exiting normally. -/
def batchScan (env : Env) (results : Store) (batch : List Point) :
    Nat → Nat → Nat → OptPathOut
  | 0, _, rng => OptPathOut.fallback false rng
  | Nat.succ fuel, i, rng =>
    match batch.get? i with
    | none => OptPathOut.raised PyErr.indexError
    | some pt =>
      match skopt2config env.cs (env.stream rng) pt with
      | none => OptPathOut.raised PyErr.indexError
      | some ccs =>
        if env.cs.isValid ccs then
          if containsKey results (jsonDumps ccs) then
            batchScan env results batch fuel (i + 1) (rng + 1)
          else
            OptPathOut.found ccs (dictSet results (jsonDumps ccs) 0) (rng + 1)
        else
          OptPathOut.fallback true (rng + 1)

/-- The `try` block of `get_config` on a non-empty store: ask for one
point, decode and validity-check it, return it if novel; otherwise ask
for a `max_tries` batch and scan it from index 1. `ValueError` at any
step is caught (`fallback true`); other exceptions propagate. -/
def optPath (env : Env) (results : Store) (rng : Nat) (maxT : Nat) : OptPathOut :=
  match env.ask 1 with
  | Except.error PyErr.valueError => OptPathOut.fallback true rng
  | Except.error e => OptPathOut.raised e
  | Except.ok pts =>
    match pts.get? 0 with
    | none => OptPathOut.raised PyErr.indexError
    | some p0 =>
      match skopt2config env.cs (env.stream rng) p0 with
      | none => OptPathOut.raised PyErr.indexError
      | some ccs =>
        if env.cs.isValid ccs then
          if containsKey results (jsonDumps ccs) then
            match env.ask maxT with
            | Except.error PyErr.valueError => OptPathOut.fallback true (rng + 1)
            | Except.error e => OptPathOut.raised e
            | Except.ok batch => batchScan env results batch (maxT - 1) 1 (rng + 1)
          else
            OptPathOut.found ccs (dictSet results (jsonDumps ccs) 0) (rng + 1)
        else
          OptPathOut.fallback true (rng + 1)

/-- `get_config(max_tries)`.  Result:
* `Except.error e` — a non-`ValueError` exception propagated;
* `Except.ok none` — control reached the `random_config()` fallback and
  its rejection loop did not terminate within the modelling fuel;
* `Except.ok (some (c, s, warned))` — configuration `c` returned with
  new state `s`; `warned` records whether `warnings.warn` fired. -/
def get_config (env : Env) (s : SState) (maxT : Nat) :
    Except PyErr (Option (Config × SState × Bool)) :=
  if s.results = [] then
    let r := default_config env s
    Except.ok (some (r.1, r.2, false))
  else
    match optPath env s.results s.rng maxT with
    | OptPathOut.found c st rng => Except.ok (some (c, ⟨st, rng⟩, false))
    | OptPathOut.fallback w rng =>
      match random_config env ⟨s.results, rng⟩ with
      | none => Except.ok none
      | some (c, s') => Except.ok (some (c, s', w))
    | OptPathOut.raised e => Except.error e

/-- `update(config, reward)`: store the reward unchanged under the
config's key, and pass `(config2skopt(config), -reward)` to the
optimizer's `tell`. The second component is the `tell` payload. -/
def update (env : Env) (s : SState) (c : Config) (r : ℚ) :
    SState × (Point × ℚ) :=
  (⟨dictSet s.results (jsonDumps c) r, s.rng⟩,
   (config2skopt env.cs.hpOrdering c, -r))

/-- Semantic equality of configurations: the same name-to-value mapping,
regardless of incidental entry ordering. -/
def semEq (c₁ c₂ : Config) : Prop :=
  ∀ k, lookupV c₁ k = lookupV c₂ k

/-- Well-formedness of the oracles, as guaranteed by ConfigSpace: the
hyperparameter names are distinct, the default configuration and every
`sample_configuration()` draw list exactly the space's hyperparameters in
the fixed order, and both are structurally valid. -/
def wfEnv (env : Env) : Prop :=
  env.cs.hpOrdering.Nodup ∧
  env.cs.defaultConfig.map Prod.fst = env.cs.hpOrdering ∧
  env.cs.isValid env.cs.defaultConfig = true ∧
  (∀ i, (env.stream i).map Prod.fst = env.cs.hpOrdering ∧
    env.cs.isValid (env.stream i) = true)

/-- Replace the space's default configuration (used to compare the store
effect of `update` with that of an issuing operation). -/
def envSetDefault (env : Env) (c : Config) : Env :=
  { env with cs := { env.cs with defaultConfig := c } }

/-! Concrete instances for counterexamples and witnesses. -/

/-- A one-dimensional space with a single integer hyperparameter `x`,
no conditions (every configuration is structurally valid). -/
def csX : CSpace :=
  ⟨["x"], [("x", Value.int 0)], fun _ => true⟩

/-- The configuration `{x: n}` of `csX`. -/
def cfg (n : Int) : Config := [("x", Value.int n)]

/-- Oracle where `ask 1` proposes the point `[5]` and a larger ask
proposes the batch `[[7], [8], [9]]`; sampling always draws `{x: 0}`. -/
def envC1 : Env :=
  ⟨csX,
   fun n => if n = 1 then Except.ok [[Value.int 5]]
            else Except.ok [[Value.int 7], [Value.int 8], [Value.int 9]],
   fun _ => cfg 0,
   5⟩

/-- A store in which `{x: 5}` is already recorded (pending). -/
def sC1 : SState := ⟨[(jsonDumps (cfg 5), 0)], 0⟩

/-- A store in which the default `{x: 0}` is recorded complete with
reward `5`. -/
def sC7 : SState := ⟨[(jsonDumps (cfg 0), 5)], 0⟩

/-- Oracle whose `ask` raises a non-`ValueError` exception. -/
def envC4 : Env :=
  ⟨csX, fun _ => Except.error PyErr.otherError, fun _ => cfg 0, 5⟩

/-- Oracle for an exhausted space: sampling always re-draws `{x: 0}`,
the only configuration, with the modelling fuel left as a parameter. -/
def envC3 (fuel : Nat) : Env :=
  ⟨csX, fun _ => Except.ok [], fun _ => cfg 0, fuel⟩

/-- State in which the sole configuration `{x: 0}` is already recorded. -/
def sC3 : SState := ⟨[(jsonDumps (cfg 0), 0)], 0⟩

/-- Oracle where the single proposal and every batch proposal duplicate
the already-recorded `{x: 5}`, so the batch loop exhausts. -/
def envC4b : Env :=
  ⟨csX,
   fun n => if n = 1 then Except.ok [[Value.int 5]]
            else Except.ok [[Value.int 5], [Value.int 5], [Value.int 5]],
   fun _ => cfg 0,
   5⟩

/-- Two semantically equal configurations differing only in entry order. -/
def exA : Config := [("a", Value.int 1), ("b", Value.int 2)]

/-- `exA` with its two entries swapped. -/
def exB : Config := [("b", Value.int 2), ("a", Value.int 1)]

/-! ### Dictionary lemmas -/

theorem lookupR_map_set (t : Store) (k : String) (r : ℚ)
    (h : t.any (fun p => p.1 = k) = true) :
    lookupR (t.map (fun p => if p.1 = k then (k, r) else p)) k = some r := by
  induction t with
  | nil => simp at h
  | cons p t ih =>
    by_cases hp : p.1 = k
    · simp [lookupR, hp]
    · simp only [List.any_cons, Bool.or_eq_true, decide_eq_true_eq] at h
      rcases h with h | h
      · exact absurd h hp
      · simpa [lookupR, hp] using ih h

theorem lookupR_append_of_not_mem (t : Store) (k : String)
    (h : t.any (fun p => p.1 = k) = false) (rest : Store) :
    lookupR (t ++ rest) k = lookupR rest k := by
  induction t with
  | nil => simp
  | cons p t ih =>
    simp only [List.any_cons, Bool.or_eq_false_iff, decide_eq_false_iff_not] at h
    simpa [lookupR, h.1] using ih (by simpa using h.2)

theorem lookupR_dictSet_self (st : Store) (k : String) (r : ℚ) :
    lookupR (dictSet st k r) k = some r := by
  unfold dictSet
  by_cases h : st.any (fun p => p.1 = k) = true
  · simpa [h] using lookupR_map_set st k r h
  · rw [if_neg h]
    rw [lookupR_append_of_not_mem st k (by simp only [Bool.not_eq_true] at h; exact h)]
    simp [lookupR]

theorem dictSet_idem (st : Store) (k : String) (r : ℚ) :
    dictSet (dictSet st k r) k r = dictSet st k r := by
  by_cases h : st.any (fun p => p.1 = k) = true
  · have hmem : (st.map (fun p => if p.1 = k then (k, r) else p)).any
        (fun p => p.1 = k) = true := by
      simp only [List.any_eq_true, decide_eq_true_eq] at h ⊢
      rcases h with ⟨p, hp, hk⟩
      exact ⟨(k, r), List.mem_map.2 ⟨p, hp, by simp [hk]⟩, rfl⟩
    unfold dictSet
    rw [if_pos h, if_pos hmem, List.map_map]
    refine List.map_congr_left ?_
    intro p _
    by_cases hp : p.1 = k <;> simp [hp]
  · have hmem : (st ++ [(k, r)]).any (fun p => p.1 = k) = true := by
      simp
    unfold dictSet
    rw [if_neg h, if_pos hmem, List.map_append]
    have h' : ∀ p ∈ st, ¬ p.1 = k := by
      intro p hp hk
      exact h (by simp only [List.any_eq_true, decide_eq_true_eq]; exact ⟨p, hp, hk⟩)
    congr 1
    · refine List.map_congr_left ?_ |>.trans (List.map_id st)
      intro p hp
      simp [h' p hp]
    · simp

/-! ### Rejection-sampling loop lemmas -/

theorem randomLoop_novel (results : Store) (stream : Nat → Config) :
    ∀ fuel idx c idx', randomLoop results stream idx fuel = some (c, idx') →
      containsKey results (jsonDumps c) = false := by
  intro fuel
  induction fuel with
  | zero => intro idx c idx' h; simp [randomLoop] at h
  | succ f ih =>
    intro idx c idx' h
    rw [randomLoop] at h
    by_cases hc : containsKey results (jsonDumps (stream idx)) = true
    · rw [if_pos hc] at h
      exact ih (idx + 1) c idx' h
    · rw [if_neg hc] at h
      simp only [Option.some.injEq, Prod.mk.injEq] at h
      rw [← h.1]
      simpa using hc

theorem randomLoop_exhausted (results : Store) (stream : Nat → Config)
    (hall : ∀ i, containsKey results (jsonDumps (stream i)) = true) :
    ∀ fuel idx, randomLoop results stream idx fuel = none := by
  intro fuel
  induction fuel with
  | zero => intro idx; simp [randomLoop]
  | succ f ih =>
    intro idx
    rw [randomLoop, if_pos (hall idx)]
    exact ih (idx + 1)

theorem randomLoop_is_sample (results : Store) (stream : Nat → Config) :
    ∀ fuel idx c idx', randomLoop results stream idx fuel = some (c, idx') →
      ∃ i, c = stream i := by
  intro fuel
  induction fuel with
  | zero => intro idx c idx' h; simp [randomLoop] at h
  | succ f ih =>
    intro idx c idx' h
    rw [randomLoop] at h
    by_cases hc : containsKey results (jsonDumps (stream idx)) = true
    · rw [if_pos hc] at h
      exact ih (idx + 1) c idx' h
    · rw [if_neg hc] at h
      simp only [Option.some.injEq, Prod.mk.injEq] at h
      exact ⟨idx, h.1.symm⟩

theorem random_config_novel (env : Env) (s : SState) (c : Config) (s' : SState)
    (h : random_config env s = some (c, s')) :
    containsKey s.results (jsonDumps c) = false ∧
    s'.results = dictSet s.results (jsonDumps c) 0 := by
  unfold random_config at h
  rcases hr : randomLoop s.results env.stream s.rng env.fuel with _ | ⟨c', idx⟩
  · rw [hr] at h; exact absurd h (by simp)
  · rw [hr] at h
    simp only [Option.some.injEq, Prod.mk.injEq] at h
    obtain ⟨hc, hs⟩ := h
    subst hc
    refine ⟨randomLoop_novel _ _ _ _ _ _ hr, by rw [← hs]⟩

/-! ### Batch-scan and optimizer-path lemmas -/

theorem batchScan_found (env : Env) (results : Store) (batch : List Point) :
    ∀ fuel i rng c st rng',
      batchScan env results batch fuel i rng = OptPathOut.found c st rng' →
      env.cs.isValid c = true ∧
      containsKey results (jsonDumps c) = false ∧
      st = dictSet results (jsonDumps c) 0 ∧
      (∃ j pt, skopt2config env.cs (env.stream j) pt = some c) := by
  intro fuel
  induction fuel with
  | zero =>
    intro i rng c st rng' h
    simp [batchScan] at h
  | succ fuel ih =>
    intro i rng c st rng' h
    rw [batchScan] at h
    split at h
    · exact absurd h (by simp)
    · rename_i pt hget
      split at h
      · exact absurd h (by simp)
      · rename_i ccs hdec
        split at h
        · rename_i hv
          split at h
          · rename_i hd
            exact ih (i + 1) (rng + 1) c st rng' h
          · rename_i hd
            simp only [OptPathOut.found.injEq] at h
            obtain ⟨hc, hst, _⟩ := h
            subst hc
            exact ⟨hv, by simpa using hd, hst.symm, rng, pt, hdec⟩
        · exact absurd h (by simp)

theorem batchScan_reach (env : Env) (results : Store) (batch : List Point)
    (c : Config) (ptj : Point) :
    ∀ fuel i rng j, i ≤ j → j < i + fuel →
    (∀ m, i ≤ m → m < j → ∃ pt cm, batch.get? m = some pt ∧
        skopt2config env.cs (env.stream (rng + (m - i))) pt = some cm ∧
        env.cs.isValid cm = true ∧
        containsKey results (jsonDumps cm) = true) →
    batch.get? j = some ptj →
    skopt2config env.cs (env.stream (rng + (j - i))) ptj = some c →
    env.cs.isValid c = true →
    containsKey results (jsonDumps c) = false →
    batchScan env results batch fuel i rng =
      OptPathOut.found c (dictSet results (jsonDumps c) 0) (rng + (j - i) + 1) := by
  intro fuel
  induction fuel with
  | zero =>
    intro i rng j hij hlt
    omega
  | succ fuel ih =>
    intro i rng j hij hlt hdups hget hdec hval hnov
    by_cases hji : j = i
    · subst hji
      simp only [Nat.sub_self, Nat.add_zero] at hdec ⊢
      rw [batchScan]
      simp only [hget, hdec]
      rw [if_pos hval, if_neg (by simp [hnov])]
    · have hilt : i < j := by omega
      obtain ⟨pt, cm, hgm, hdm, hvm, hcm⟩ := hdups i (Nat.le_refl i) hilt
      rw [Nat.sub_self, Nat.add_zero] at hdm
      rw [batchScan]
      simp only [hgm, hdm]
      rw [if_pos hvm, if_pos hcm]
      have hres := ih (i + 1) (rng + 1) j (by omega) (by omega)
        (by
          intro m hm₁ hm₂
          obtain ⟨pt', cm', hg', hd', hv', hc'⟩ := hdups m (by omega) hm₂
          refine ⟨pt', cm', hg', ?_, hv', hc'⟩
          have harith : rng + 1 + (m - (i + 1)) = rng + (m - i) := by omega
          rw [harith]
          exact hd')
        hget
        (by
          have harith : rng + 1 + (j - (i + 1)) = rng + (j - i) := by omega
          rw [harith]
          exact hdec)
        hval hnov
      rw [hres]
      have harith : rng + 1 + (j - (i + 1)) + 1 = rng + (j - i) + 1 := by omega
      rw [harith]

theorem batchScan_exhaust (env : Env) (results : Store) (batch : List Point) :
    ∀ fuel i rng,
    (∀ m, i ≤ m → m < i + fuel → ∃ pt cm, batch.get? m = some pt ∧
        skopt2config env.cs (env.stream (rng + (m - i))) pt = some cm ∧
        env.cs.isValid cm = true ∧
        containsKey results (jsonDumps cm) = true) →
    batchScan env results batch fuel i rng =
      OptPathOut.fallback false (rng + fuel) := by
  intro fuel
  induction fuel with
  | zero =>
    intro i rng _
    rw [batchScan, Nat.add_zero]
  | succ fuel ih =>
    intro i rng hdups
    have hilt : i < i + Nat.succ fuel := by omega
    obtain ⟨pt, cm, hgm, hdm, hvm, hcm⟩ := hdups i (Nat.le_refl i) hilt
    rw [Nat.sub_self, Nat.add_zero] at hdm
    rw [batchScan]
    simp only [hgm, hdm]
    rw [if_pos hvm, if_pos hcm]
    have hres := ih (i + 1) (rng + 1)
      (by
        intro m hm₁ hm₂
        obtain ⟨pt', cm', hg', hd', hv', hc'⟩ := hdups m (by omega) (by omega)
        refine ⟨pt', cm', hg', ?_, hv', hc'⟩
        have harith : rng + 1 + (m - (i + 1)) = rng + (m - i) := by omega
        rw [harith]
        exact hd')
    rw [hres]
    have harith : rng + 1 + fuel = rng + Nat.succ fuel := by omega
    rw [harith]

theorem optPath_found (env : Env) (results : Store) (rng maxT : Nat)
    (c : Config) (st : Store) (rng' : Nat)
    (h : optPath env results rng maxT = OptPathOut.found c st rng') :
    env.cs.isValid c = true ∧
    containsKey results (jsonDumps c) = false ∧
    st = dictSet results (jsonDumps c) 0 ∧
    (∃ j pt, skopt2config env.cs (env.stream j) pt = some c) := by
  unfold optPath at h
  split at h
  · exact absurd h (by simp)
  · exact absurd h (by simp)
  · rename_i pts hask
    split at h
    · exact absurd h (by simp)
    · rename_i p0 hget
      split at h
      · exact absurd h (by simp)
      · rename_i ccs hdec
        split at h
        · rename_i hv
          split at h
          · rename_i hd
            split at h
            · exact absurd h (by simp)
            · exact absurd h (by simp)
            · rename_i batch hask2
              exact batchScan_found env results batch (maxT - 1) 1 (rng + 1) c st rng' h
          · rename_i hd
            simp only [OptPathOut.found.injEq] at h
            obtain ⟨hc, hst, _⟩ := h
            subst hc
            exact ⟨hv, by simpa using hd, hst.symm, rng, p0, hdec⟩
        · exact absurd h (by simp)

/-! ### Encoding/decoding lemmas -/

theorem setKey_pre_mid (pre s' : Config) (k : String) (w v : Value)
    (hpre : ∀ p ∈ pre, p.1 ≠ k) (hs : ∀ p ∈ s', p.1 ≠ k) :
    setKey (pre ++ (k, w) :: s') k v = pre ++ (k, v) :: s' := by
  unfold setKey
  have hany : (pre ++ (k, w) :: s').any (fun p => p.1 = k) = true := by simp
  rw [if_pos hany, List.map_append, List.map_cons]
  congr 1
  · calc pre.map (fun p => if p.1 = k then (k, v) else p)
        = pre.map id := List.map_congr_left fun p hp => by simp [hpre p hp]
      _ = pre := List.map_id pre
  · congr 1
    · simp
    · calc s'.map (fun p => if p.1 = k then (k, v) else p)
          = s'.map id := List.map_congr_left fun p hp => by simp [hs p hp]
        _ = s' := List.map_id s'

theorem assignLoop_zip :
    ∀ (ks : List String) (vs : List Value) (pre s : Config),
    s.map Prod.fst = ks → (∀ p ∈ pre, p.1 ∉ ks) → ks.Nodup →
    vs.length = ks.length →
    assignLoop (pre ++ s) ks vs = some (pre ++ ks.zip vs) := by
  intro ks
  induction ks with
  | nil =>
    intro vs pre s hs _ _ hlen
    have hvs : vs = [] := List.eq_nil_of_length_eq_zero (by simpa using hlen)
    have hsn : s = [] := by
      cases s with
      | nil => rfl
      | cons p t => simp at hs
    subst hvs; subst hsn
    simp [assignLoop]
  | cons k ks ih =>
    intro vs pre s hs hpre hnd hlen
    cases vs with
    | nil => simp at hlen
    | cons v vs' =>
      cases s with
      | nil => simp at hs
      | cons p s' =>
        simp only [List.map_cons, List.cons.injEq] at hs
        obtain ⟨hp1, hs'⟩ := hs
        simp only [List.nodup_cons] at hnd
        obtain ⟨hknot, hnd'⟩ := hnd
        obtain ⟨pk, pv⟩ := p
        simp only at hp1
        subst hp1
        rw [assignLoop]
        have hpre₁ : ∀ q ∈ pre, q.1 ≠ pk := fun q hq =>
          fun he => hpre q hq (by rw [he]; exact List.mem_cons_self _ _)
        have hs₁ : ∀ q ∈ s', q.1 ≠ pk := by
          intro q hq he
          apply hknot
          rw [← he, ← hs']
          exact List.mem_map.2 ⟨q, hq, rfl⟩
        rw [setKey_pre_mid pre s' pk pv v hpre₁ hs₁]
        have hmid : pre ++ (pk, v) :: s' = (pre ++ [(pk, v)]) ++ s' := by simp
        rw [hmid]
        rw [ih vs' (pre ++ [(pk, v)]) s' hs'
          (by
            intro q hq
            rcases List.mem_append.1 hq with hq | hq
            · exact fun hk => hpre q hq (List.mem_cons_of_mem _ hk)
            · simp only [List.mem_singleton] at hq
              subst hq
              exact hknot)
          hnd' (by simpa using hlen)]
        simp

theorem skopt2config_zip (cs : CSpace) (sample : Config) (point : Point)
    (hs : sample.map Prod.fst = cs.hpOrdering) (hnd : cs.hpOrdering.Nodup)
    (hlen : point.length = cs.hpOrdering.length) :
    skopt2config cs sample point = some (cs.hpOrdering.zip point) := by
  have h := assignLoop_zip cs.hpOrdering point [] sample hs (by simp) hnd hlen
  simpa [skopt2config] using h

theorem config2skopt_vals (c : Config) (d : Value)
    (hnd : (c.map Prod.fst).Nodup) :
    (c.map Prod.fst).map (fun hp => (lookupV c hp).getD d) = c.map Prod.snd := by
  induction c with
  | nil => rfl
  | cons p t ih =>
    simp only [List.map_cons, List.nodup_cons] at hnd
    rw [List.map_cons, List.map_cons, List.map_cons]
    congr 1
    · simp [lookupV]
    · have hne : ∀ k ∈ t.map Prod.fst, ¬ p.1 = k := by
        intro k hk he
        exact hnd.1 (he ▸ hk)
      calc (t.map Prod.fst).map (fun hp => (lookupV (p :: t) hp).getD d)
          = (t.map Prod.fst).map (fun hp => (lookupV t hp).getD d) :=
            List.map_congr_left fun k hk => by
              rw [lookupV, if_neg (hne k hk)]
        _ = t.map Prod.snd := ih hnd.2

theorem zip_fst_snd (c : Config) :
    (c.map Prod.fst).zip (c.map Prod.snd) = c := by
  have h := List.zip_unzip c
  rwa [List.unzip_eq_map] at h

/-- Round trip: for a configuration listing exactly the space's
hyperparameters in the fixed order, decoding its encoding against any
sample with the same shape returns it unchanged. -/
theorem roundtrip (cs : CSpace) (sample c : Config)
    (hnd : cs.hpOrdering.Nodup)
    (hc : c.map Prod.fst = cs.hpOrdering)
    (hs : sample.map Prod.fst = cs.hpOrdering) :
    skopt2config cs sample (config2skopt cs.hpOrdering c) = some c := by
  have hpt : config2skopt cs.hpOrdering c = c.map Prod.snd := by
    unfold config2skopt
    rw [← hc]
    exact config2skopt_vals c (Value.int 0) (hc ▸ hnd)
  rw [hpt]
  rw [skopt2config_zip cs sample (c.map Prod.snd) hs hnd
    (by rw [← hc]; simp)]
  rw [← hc, zip_fst_snd]

/-- Names are preserved by the assignment loop when every assigned key is
already present in the sample. -/
theorem assignLoop_names :
    ∀ (ks : List String) (vs : List Value) (s c : Config),
    (∀ k ∈ ks, k ∈ s.map Prod.fst) →
    assignLoop s ks vs = some c → c.map Prod.fst = s.map Prod.fst := by
  intro ks
  induction ks with
  | nil =>
    intro vs s c _ h
    cases vs with
    | nil => simp [assignLoop] at h; rw [← h]
    | cons v vs' => simp [assignLoop] at h
  | cons k ks ih =>
    intro vs s c hmem h
    cases vs with
    | nil => simp [assignLoop] at h; rw [← h]
    | cons v vs' =>
      rw [assignLoop] at h
      have hset : (setKey s k v).map Prod.fst = s.map Prod.fst := by
        unfold setKey
        rw [if_pos]
        · rw [List.map_map]
          refine List.map_congr_left ?_
          intro p _
          by_cases hp : p.1 = k <;> simp [hp]
        · have := hmem k (List.mem_cons_self _ _)
          simp only [List.mem_map] at this
          obtain ⟨p, hp, hpk⟩ := this
          simp only [List.any_eq_true, decide_eq_true_eq]
          exact ⟨p, hp, hpk⟩
      have := ih vs' (setKey s k v) c
        (by
          intro k' hk'
          rw [hset]
          exact hmem k' (List.mem_cons_of_mem _ hk'))
        h
      rw [this, hset]

/-! ### Canonical-key lemmas -/

theorem lookupV_eq_none_of_not_mem (c : Config) (k : String)
    (h : k ∉ c.map Prod.fst) : lookupV c k = none := by
  induction c with
  | nil => rfl
  | cons p t ih =>
    simp only [List.map_cons, List.mem_cons] at h
    push_neg at h
    rw [lookupV, if_neg (fun he => h.1 he.symm)]
    exact ih h.2

theorem eq_of_semEq :
    ∀ (c₁ c₂ : Config), c₁.map Prod.fst = c₂.map Prod.fst →
    (c₁.map Prod.fst).Nodup → semEq c₁ c₂ → c₁ = c₂ := by
  intro c₁
  induction c₁ with
  | nil =>
    intro c₂ hord _ _
    have : c₂.map Prod.fst = [] := hord.symm
    cases c₂ with
    | nil => rfl
    | cons q t => simp at this
  | cons p t ih =>
    intro c₂ hord hnd hsem
    cases c₂ with
    | nil => simp at hord
    | cons q t₂ =>
      simp only [List.map_cons, List.cons.injEq] at hord
      obtain ⟨hpq, htails⟩ := hord
      simp only [List.map_cons, List.nodup_cons] at hnd
      obtain ⟨hnot, hnd'⟩ := hnd
      have hv : p.2 = q.2 := by
        have h := hsem p.1
        rw [lookupV, if_pos rfl, lookupV, if_pos hpq.symm] at h
        exact Option.some.inj h
      have hsem' : semEq t t₂ := by
        intro k
        by_cases hk : k = p.1
        · rw [hk]
          rw [lookupV_eq_none_of_not_mem t p.1 hnot,
            lookupV_eq_none_of_not_mem t₂ p.1 (by rw [← htails]; exact hnot)]
        · have h := hsem k
          rw [lookupV, if_neg (fun he => hk he.symm),
            lookupV, if_neg (fun he => hk (by rw [← hpq] at he; exact he.symm))] at h
          exact h
      have hteq := ih t₂ htails hnd' hsem'
      obtain ⟨pk, pv⟩ := p
      obtain ⟨qk, qv⟩ := q
      simp only at hpq hv
      rw [hpq, hv, hteq]

/-! ### `get_config` case analysis -/

theorem get_config_cases (env : Env) (s : SState) (maxT : Nat)
    (c : Config) (s' : SState) (w : Bool)
    (h : get_config env s maxT = Except.ok (some (c, s', w))) :
    (s.results = [] ∧ c = env.cs.defaultConfig ∧
      s' = ⟨dictSet s.results (jsonDumps c) 0, s.rng⟩) ∨
    (∃ st rng', optPath env s.results s.rng maxT = OptPathOut.found c st rng' ∧
      s' = ⟨st, rng'⟩) ∨
    (∃ rng', random_config env ⟨s.results, rng'⟩ = some (c, s')) := by
  unfold get_config at h
  by_cases he : s.results = []
  · rw [if_pos he] at h
    simp only [default_config, Except.ok.injEq, Option.some.injEq,
      Prod.mk.injEq] at h
    obtain ⟨hc, hs, _⟩ := h
    exact Or.inl ⟨he, hc.symm, by rw [← hs, ← hc]⟩
  · rw [if_neg he] at h
    split at h
    · rename_i c₀ st rng' hopt
      simp only [Except.ok.injEq, Option.some.injEq, Prod.mk.injEq] at h
      obtain ⟨hc, hs, _⟩ := h
      subst hc
      exact Or.inr (Or.inl ⟨st, rng', hopt, hs.symm⟩)
    · rename_i wb rng' hopt
      split at h
      · exact absurd h (by simp)
      · rename_i pr hrand
        obtain ⟨cr, sr⟩ := pr
        simp only [Except.ok.injEq, Option.some.injEq, Prod.mk.injEq] at h
        obtain ⟨hc, hs, _⟩ := h
        subst hc
        exact Or.inr (Or.inr ⟨rng', by rw [hrand, hs]⟩)
    · exact absurd h (by simp)

theorem random_config_is_sample (env : Env) (s : SState) (c : Config)
    (s' : SState) (h : random_config env s = some (c, s')) :
    ∃ i, c = env.stream i := by
  unfold random_config at h
  rcases hr : randomLoop s.results env.stream s.rng env.fuel with _ | ⟨c', idx⟩
  · rw [hr] at h; exact absurd h (by simp)
  · rw [hr] at h
    simp only [Option.some.injEq, Prod.mk.injEq] at h
    obtain ⟨i, hi⟩ := randomLoop_is_sample s.results env.stream env.fuel s.rng c' idx hr
    exact ⟨i, by rw [← h.1]; exact hi⟩

/-! ### Claim theorems -/

/-- C2: every configuration returned by `random_config`, or by
`get_config` on a non-empty result store, has a canonical key that was
absent from the store immediately before the call and is recorded
(pending, value 0) in the returned state. -/
theorem C2_novelty_guarantee (env : Env) (s : SState) (maxT : Nat)
    (c : Config) (s' : SState) (w : Bool) :
    (random_config env s = some (c, s') →
      containsKey s.results (jsonDumps c) = false ∧
      lookupR s'.results (jsonDumps c) = some 0) ∧
    (s.results ≠ [] → get_config env s maxT = Except.ok (some (c, s', w)) →
      containsKey s.results (jsonDumps c) = false ∧
      lookupR s'.results (jsonDumps c) = some 0) := by
  constructor
  · intro h
    obtain ⟨hn, hs⟩ := random_config_novel env s c s' h
    exact ⟨hn, by rw [hs]; exact lookupR_dictSet_self _ _ _⟩
  · intro hne h
    rcases get_config_cases env s maxT c s' w h with
      ⟨he, _⟩ | ⟨st, rng', hopt, hs⟩ | ⟨rng', hrand⟩
    · exact absurd he hne
    · obtain ⟨_, hnov, hst, _⟩ := optPath_found env s.results s.rng maxT c st rng' hopt
      refine ⟨hnov, ?_⟩
      rw [hs]
      simp only
      rw [hst]
      exact lookupR_dictSet_self _ _ _
    · obtain ⟨hn, hs⟩ := random_config_novel env ⟨s.results, rng'⟩ c s' hrand
      exact ⟨hn, by rw [hs]; exact lookupR_dictSet_self _ _ _⟩

/-- C2 witness: on `envC1`/`sC1`, `get_config` returns `{x: 8}`, whose
key was absent from the store before and maps to 0 after. -/
theorem C2_witness :
    containsKey sC1.results (jsonDumps (cfg 8)) = false ∧
    lookupR [(jsonDumps (cfg 5), 0), (jsonDumps (cfg 8), 0)]
      (jsonDumps (cfg 8)) = some 0 :=
  (C2_novelty_guarantee envC1 sC1 3 (cfg 8)
      ⟨[(jsonDumps (cfg 5), 0), (jsonDumps (cfg 8), 0)], 2⟩ false).2
    (by decide) rfl

/-- C3: the claim mandates a bounded attempt budget for `random_config`,
but the source's rejection loop has no terminating condition (its own
docstring records the TODO): whenever every sampled configuration is
already recorded, the loop never exits — no finite fuel bound makes it
return, for any state and any fuel. -/
theorem C3_random_config_unbounded (env : Env) (s : SState)
    (hall : ∀ i, containsKey s.results (jsonDumps (env.stream i)) = true) :
    random_config env s = none := by
  unfold random_config
  rw [randomLoop_exhausted s.results env.stream hall env.fuel s.rng]

/-- C3 witness: the exhausted one-configuration space, with fuel 7. -/
theorem C3_witness : random_config (envC3 7) sC3 = none :=
  C3_random_config_unbounded (envC3 7) sC3 (fun _ => rfl)

/-- C5: after `update(c, r)` the store maps `c`'s key to exactly the
unnegated `r`, while the optimizer's `tell` receives the encoded vector
of `c` together with `-r`. -/
theorem C5_update_reward_sign (env : Env) (s : SState) (c : Config) (r : ℚ) :
    lookupR (update env s c r).1.results (jsonDumps c) = some r ∧
    (update env s c r).2 = (config2skopt env.cs.hpOrdering c, -r) :=
  ⟨lookupR_dictSet_self s.results (jsonDumps c) r, rfl⟩

/-- C6 counterexample: two configurations with the same name-to-value
mapping but different entry order get different canonical keys, so the
key is not order-independent and key equality does not coincide with
semantic equality. -/
theorem C6_counterexample :
    semEq exA exB ∧ jsonDumps exA ≠ jsonDumps exB := by
  constructor
  · intro k
    by_cases ha : "a" = k
    · rw [← ha]; decide
    · by_cases hb : "b" = k
      · rw [← hb]; decide
      · rw [lookupV_eq_none_of_not_mem exA k
            (by
              simp only [exA, List.map_cons, List.map_nil, List.mem_cons,
                List.not_mem_nil, or_false]
              rintro (h | h)
              · exact ha h.symm
              · exact hb h.symm),
          lookupV_eq_none_of_not_mem exB k
            (by
              simp only [exB, List.map_cons, List.map_nil, List.mem_cons,
                List.not_mem_nil, or_false]
              rintro (h | h)
              · exact hb h.symm
              · exact ha h.symm)]
  · decide

/-- C6 amended: the canonical key is a deterministic function of the
ordered entry list: two semantically equal configurations listing their
fields in the same order (as every configuration produced through the
space's fixed hyperparameter order does) receive identical keys. -/
theorem C6_key_deterministic_same_order (c₁ c₂ : Config)
    (hord : c₁.map Prod.fst = c₂.map Prod.fst)
    (hnd : (c₁.map Prod.fst).Nodup)
    (hsem : semEq c₁ c₂) :
    jsonDumps c₁ = jsonDumps c₂ := by
  rw [eq_of_semEq c₁ c₂ hord hnd hsem]

/-- C6 amended witness. -/
theorem C6_witness : jsonDumps exA = jsonDumps exA :=
  C6_key_deterministic_same_order exA exA rfl (by decide) (fun _ => rfl)

/-- C7 counterexample: when the default configuration is already
recorded complete with reward 5, `default_config()` overwrites the
record with 0 instead of leaving it unchanged. -/
theorem C7_counterexample :
    (default_config envC1 sC7).1 = cfg 0 ∧
    lookupR sC7.results (jsonDumps (cfg 0)) = some 5 ∧
    lookupR (default_config envC1 sC7).2.results (jsonDumps (cfg 0)) = some 0 ∧
    (default_config envC1 sC7).2.results ≠ sC7.results := by
  refine ⟨rfl, by decide, by decide, by decide⟩

/-- C7 amended: `default_config()` always returns the space's default
and unconditionally stores 0 under its key (overwriting any recorded
reward); it is idempotent in the weaker sense that repeated calls
re-return the same default and a second consecutive call leaves the
state fixed. -/
theorem C7_default_config_overwrites (env : Env) (s : SState) :
    (default_config env s).1 = env.cs.defaultConfig ∧
    lookupR (default_config env s).2.results
      (jsonDumps env.cs.defaultConfig) = some 0 ∧
    default_config env (default_config env s).2 = default_config env s := by
  refine ⟨rfl, lookupR_dictSet_self _ _ _, ?_⟩
  unfold default_config
  exact congrArg
    (fun st => (env.cs.defaultConfig, SState.mk st s.rng))
    (dictSet_idem s.results (jsonDumps env.cs.defaultConfig) 0)

/-- C9: decoding a full-length candidate vector does not depend on the
random sample `skopt2config` starts from: any two samples drawn from
the space (same name list in the fixed order) decode the same point to
the same configuration. -/
theorem C9_skopt2config_deterministic (cs : CSpace) (s₁ s₂ : Config)
    (point : Point)
    (h₁ : s₁.map Prod.fst = cs.hpOrdering)
    (h₂ : s₂.map Prod.fst = cs.hpOrdering)
    (hnd : cs.hpOrdering.Nodup)
    (hlen : point.length = cs.hpOrdering.length) :
    skopt2config cs s₁ point = skopt2config cs s₂ point := by
  rw [skopt2config_zip cs s₁ point h₁ hnd hlen,
    skopt2config_zip cs s₂ point h₂ hnd hlen]

/-- C9 witness: two different random samples decode `[7]` identically. -/
theorem C9_witness :
    skopt2config csX (cfg 3) [Value.int 7] =
    skopt2config csX (cfg 9) [Value.int 7] :=
  C9_skopt2config_deterministic csX (cfg 3) (cfg 9) [Value.int 7]
    rfl rfl (by decide) rfl

/-- C10: the result store keeps one scalar per canonical key and no
status field: issuing operations record 0, `update` records exactly the
given reward, and the state after `update(c, 0)` is indistinguishable
from the state after recording `c` pending (here: issuing `c` as a
space default). -/
theorem C10_store_single_scalar (env : Env) (s : SState) (c : Config)
    (r : ℚ) :
    lookupR (update env s c r).1.results (jsonDumps c) = some r ∧
    lookupR (default_config env s).2.results
      (jsonDumps env.cs.defaultConfig) = some 0 ∧
    (∀ c' s', random_config env s = some (c', s') →
      lookupR s'.results (jsonDumps c') = some 0) ∧
    (update env s c 0).1 = (default_config (envSetDefault env c) s).2 := by
  refine ⟨lookupR_dictSet_self _ _ _, lookupR_dictSet_self _ _ _, ?_, rfl⟩
  intro c' s' h
  obtain ⟨_, hs⟩ := random_config_novel env s c' s' h
  rw [hs]
  exact lookupR_dictSet_self _ _ _

/-- C10 witness: a pending record written by `random_config` holds 0. -/
theorem C10_witness :
    lookupR (⟨[(jsonDumps (cfg 0), 0)], 1⟩ : SState).results
      (jsonDumps (cfg 0)) = some 0 :=
  (C10_store_single_scalar envC1 ⟨[], 0⟩ (cfg 1) 3).2.2.1 (cfg 0)
    ⟨[(jsonDumps (cfg 0), 0)], 1⟩ rfl

/-- C1 counterexample: on a non-empty store, with the single proposal a
duplicate, the batch `[[7], [8], [9]]` has the valid and novel `{x: 7}`
as its first candidate, yet `get_config` returns `{x: 8}` — the scan
skips the batch's first element, contradicting "returns the first
candidate of the batch that is both structurally valid and novel". -/
theorem C1_counterexample :
    skopt2config envC1.cs (cfg 0) [Value.int 7] = some (cfg 7) ∧
    envC1.cs.isValid (cfg 7) = true ∧
    containsKey sC1.results (jsonDumps (cfg 7)) = false ∧
    envC1.ask 3 = Except.ok [[Value.int 7], [Value.int 8], [Value.int 9]] ∧
    get_config envC1 sC1 3 = Except.ok (some (cfg 8,
      ⟨[(jsonDumps (cfg 5), 0), (jsonDumps (cfg 8), 0)], 2⟩, false)) ∧
    cfg 8 ≠ cfg 7 := by
  refine ⟨rfl, rfl, by decide, rfl, rfl, by decide⟩

/-- C1 amended: on an empty store `get_config` returns
`default_config()`; otherwise it asks for one candidate and returns it
recorded-pending if it decodes valid and novel; if that candidate is
valid but already recorded, it asks for a `max_tries` batch and scans
it starting from its second element (index 1), returning the first
scanned candidate that is valid and novel, recorded pending (an
invalid candidate instead aborts the optimizer path, see C4). -/
theorem C1_get_config_amended (env : Env) (s : SState) (maxT : Nat) :
    (s.results = [] → get_config env s maxT =
      Except.ok (some ((default_config env s).1, (default_config env s).2,
        false))) ∧
    (∀ p0 rest c, s.results ≠ [] →
      env.ask 1 = Except.ok (p0 :: rest) →
      skopt2config env.cs (env.stream s.rng) p0 = some c →
      env.cs.isValid c = true →
      containsKey s.results (jsonDumps c) = false →
      get_config env s maxT = Except.ok (some (c,
        ⟨dictSet s.results (jsonDumps c) 0, s.rng + 1⟩, false))) ∧
    (∀ p0 rest c0 batch j ptj c, s.results ≠ [] →
      env.ask 1 = Except.ok (p0 :: rest) →
      skopt2config env.cs (env.stream s.rng) p0 = some c0 →
      env.cs.isValid c0 = true →
      containsKey s.results (jsonDumps c0) = true →
      env.ask maxT = Except.ok batch →
      1 ≤ j → j < maxT →
      (∀ m, 1 ≤ m → m < j → ∃ pt cm, batch.get? m = some pt ∧
        skopt2config env.cs (env.stream (s.rng + m)) pt = some cm ∧
        env.cs.isValid cm = true ∧
        containsKey s.results (jsonDumps cm) = true) →
      batch.get? j = some ptj →
      skopt2config env.cs (env.stream (s.rng + j)) ptj = some c →
      env.cs.isValid c = true →
      containsKey s.results (jsonDumps c) = false →
      get_config env s maxT = Except.ok (some (c,
        ⟨dictSet s.results (jsonDumps c) 0, s.rng + j + 1⟩, false))) := by
  refine ⟨?_, ?_, ?_⟩
  · intro he
    unfold get_config
    rw [if_pos he]
  · intro p0 rest c hne hask hdec hval hnov
    have hopt : optPath env s.results s.rng maxT =
        OptPathOut.found c (dictSet s.results (jsonDumps c) 0) (s.rng + 1) := by
      unfold optPath
      simp only [hask, List.get?_cons_zero, hdec]
      rw [if_pos hval, if_neg (by simp [hnov])]
    unfold get_config
    rw [if_neg hne]
    simp only [hopt]
  · intro p0 rest c0 batch j ptj c hne hask1 hdec0 hval0 hdup0 haskM hj1 hjm
      hdups hgetj hdecj hvalc hnovc
    have hbatch : batchScan env s.results batch (maxT - 1) 1 (s.rng + 1) =
        OptPathOut.found c (dictSet s.results (jsonDumps c) 0)
          (s.rng + j + 1) := by
      have h := batchScan_reach env s.results batch c ptj (maxT - 1) 1
        (s.rng + 1) j hj1 (by omega)
        (by
          intro m hm₁ hm₂
          obtain ⟨pt, cm, hg, hd, hv, hc⟩ := hdups m hm₁ (by omega)
          refine ⟨pt, cm, hg, ?_, hv, hc⟩
          have harith : s.rng + 1 + (m - 1) = s.rng + m := by omega
          rw [harith]
          exact hd)
        hgetj
        (by
          have harith : s.rng + 1 + (j - 1) = s.rng + j := by omega
          rw [harith]
          exact hdecj)
        hvalc hnovc
      rw [h]
      have harith : s.rng + 1 + (j - 1) + 1 = s.rng + j + 1 := by omega
      rw [harith]
    have hopt : optPath env s.results s.rng maxT =
        OptPathOut.found c (dictSet s.results (jsonDumps c) 0)
          (s.rng + j + 1) := by
      unfold optPath
      simp only [hask1, List.get?_cons_zero, hdec0]
      rw [if_pos hval0, if_pos hdup0]
      simp only [haskM]
      exact hbatch
    unfold get_config
    rw [if_neg hne]
    simp only [hopt]

/-- C1 amended witness: the concrete batch run on `envC1`. -/
theorem C1_witness :
    get_config envC1 sC1 3 = Except.ok (some (cfg 8,
      ⟨dictSet sC1.results (jsonDumps (cfg 8)) 0, sC1.rng + 1 + 1⟩,
        false)) :=
  (C1_get_config_amended envC1 sC1 3).2.2 [Value.int 5] [] (cfg 5)
    [[Value.int 7], [Value.int 8], [Value.int 9]] 1 [Value.int 8] (cfg 8)
    (by decide) rfl rfl rfl (by decide) rfl (by decide) (by decide)
    (fun m hm₁ hm₂ => absurd hm₂ (by omega))
    rfl rfl rfl (by decide)

/-- C4 counterexample: first, a non-`ValueError` optimizer failure
propagates out of `get_config` (contradicting "no error from the
optimizer path ever propagates"); second, when every batch candidate is
a duplicate, `get_config` falls back to random search with `warned =
false` (contradicting "with a warning-level signal"). -/
theorem C4_counterexample :
    get_config envC4 sC1 3 = Except.error PyErr.otherError ∧
    get_config envC4b sC1 3 = Except.ok (some (cfg 0,
      ⟨[(jsonDumps (cfg 5), 0), (jsonDumps (cfg 0), 0)], 4⟩, false)) :=
  ⟨rfl, rfl⟩

/-- C4 amended: a `ValueError` from the optimizer and a
structural-validity failure of the single proposal are caught and
degrade to `random_config()` with a warning; a batch in which every
scanned candidate is a valid duplicate degrades to `random_config()`
without a warning; any non-`ValueError` optimizer failure propagates to
the caller. -/
theorem C4_error_handling_amended (env : Env) (s : SState) (maxT : Nat) :
    (s.results ≠ [] → env.ask 1 = Except.error PyErr.valueError →
      get_config env s maxT = Except.ok
        ((random_config env ⟨s.results, s.rng⟩).map
          (fun p => (p.1, p.2, true)))) ∧
    (∀ p0 rest c0, s.results ≠ [] →
      env.ask 1 = Except.ok (p0 :: rest) →
      skopt2config env.cs (env.stream s.rng) p0 = some c0 →
      env.cs.isValid c0 = false →
      get_config env s maxT = Except.ok
        ((random_config env ⟨s.results, s.rng + 1⟩).map
          (fun p => (p.1, p.2, true)))) ∧
    (∀ p0 rest c0 batch, s.results ≠ [] → 1 ≤ maxT →
      env.ask 1 = Except.ok (p0 :: rest) →
      skopt2config env.cs (env.stream s.rng) p0 = some c0 →
      env.cs.isValid c0 = true →
      containsKey s.results (jsonDumps c0) = true →
      env.ask maxT = Except.ok batch →
      (∀ m, 1 ≤ m → m < maxT → ∃ pt cm, batch.get? m = some pt ∧
        skopt2config env.cs (env.stream (s.rng + m)) pt = some cm ∧
        env.cs.isValid cm = true ∧
        containsKey s.results (jsonDumps cm) = true) →
      get_config env s maxT = Except.ok
        ((random_config env ⟨s.results, s.rng + maxT⟩).map
          (fun p => (p.1, p.2, false)))) ∧
    (∀ e, s.results ≠ [] → env.ask 1 = Except.error e →
      e ≠ PyErr.valueError →
      get_config env s maxT = Except.error e) := by
  refine ⟨?_, ?_, ?_, ?_⟩
  · intro hne hask
    have hopt : optPath env s.results s.rng maxT =
        OptPathOut.fallback true s.rng := by
      unfold optPath
      simp only [hask]
    unfold get_config
    rw [if_neg hne]
    simp only [hopt]
    rcases hrc : random_config env ⟨s.results, s.rng⟩ with _ | ⟨cr, sr⟩ <;>
      simp [hrc]
  · intro p0 rest c0 hne hask hdec hval
    have hopt : optPath env s.results s.rng maxT =
        OptPathOut.fallback true (s.rng + 1) := by
      unfold optPath
      simp only [hask, List.get?_cons_zero, hdec]
      rw [if_neg (by simp [hval])]
    unfold get_config
    rw [if_neg hne]
    simp only [hopt]
    rcases hrc : random_config env ⟨s.results, s.rng + 1⟩ with _ | ⟨cr, sr⟩ <;>
      simp [hrc]
  · intro p0 rest c0 batch hne hmt hask1 hdec0 hval0 hdup0 haskM hdups
    have hbatch : batchScan env s.results batch (maxT - 1) 1 (s.rng + 1) =
        OptPathOut.fallback false (s.rng + maxT) := by
      have h := batchScan_exhaust env s.results batch (maxT - 1) 1 (s.rng + 1)
        (by
          intro m hm₁ hm₂
          obtain ⟨pt, cm, hg, hd, hv, hc⟩ := hdups m hm₁ (by omega)
          refine ⟨pt, cm, hg, ?_, hv, hc⟩
          have harith : s.rng + 1 + (m - 1) = s.rng + m := by omega
          rw [harith]
          exact hd)
      rw [h]
      have harith : s.rng + 1 + (maxT - 1) = s.rng + maxT := by omega
      rw [harith]
    have hopt : optPath env s.results s.rng maxT =
        OptPathOut.fallback false (s.rng + maxT) := by
      unfold optPath
      simp only [hask1, List.get?_cons_zero, hdec0]
      rw [if_pos hval0, if_pos hdup0]
      simp only [haskM]
      exact hbatch
    unfold get_config
    rw [if_neg hne]
    simp only [hopt]
    rcases hrc : random_config env ⟨s.results, s.rng + maxT⟩ with _ | ⟨cr, sr⟩ <;>
      simp [hrc]
  · intro e hne hask hnv
    have hopt : optPath env s.results s.rng maxT = OptPathOut.raised e := by
      unfold optPath
      cases e with
      | valueError => exact absurd rfl hnv
      | indexError => simp only [hask]
      | otherError => simp only [hask]
    unfold get_config
    rw [if_neg hne]
    simp only [hopt]

/-- C4 amended witness: the propagation case at a concrete input. -/
theorem C4_witness :
    get_config envC4 sC1 5 = Except.error PyErr.otherError :=
  (C4_error_handling_amended envC4 sC1 5).2.2.2 PyErr.otherError
    (by decide) rfl (by decide)

/-- C8: under the space's guarantees (distinct hyperparameter names;
default and samples valid and listing the hyperparameters in the fixed
order), every configuration returned by `default_config`,
`random_config` or `get_config` is structurally valid and decodes from
its own encoding unchanged. -/
theorem C8_returned_valid_roundtrip (env : Env) (s : SState) (maxT : Nat)
    (hwf : wfEnv env) :
    (∀ c s', default_config env s = (c, s') →
      env.cs.isValid c = true ∧
      (∀ j, skopt2config env.cs (env.stream j)
        (config2skopt env.cs.hpOrdering c) = some c)) ∧
    (∀ c s', random_config env s = some (c, s') →
      env.cs.isValid c = true ∧
      (∀ j, skopt2config env.cs (env.stream j)
        (config2skopt env.cs.hpOrdering c) = some c)) ∧
    (∀ c s' w, get_config env s maxT = Except.ok (some (c, s', w)) →
      env.cs.isValid c = true ∧
      (∀ j, skopt2config env.cs (env.stream j)
        (config2skopt env.cs.hpOrdering c) = some c)) := by
  obtain ⟨hnd, hdn, hdv, hst⟩ := hwf
  have hround : ∀ c, c.map Prod.fst = env.cs.hpOrdering →
      ∀ j, skopt2config env.cs (env.stream j)
        (config2skopt env.cs.hpOrdering c) = some c := by
    intro c hc j
    exact roundtrip env.cs (env.stream j) c hnd hc (hst j).1
  have hsample : ∀ c, (∃ i, c = env.stream i) →
      env.cs.isValid c = true ∧
      (∀ j, skopt2config env.cs (env.stream j)
        (config2skopt env.cs.hpOrdering c) = some c) := by
    rintro c ⟨i, rfl⟩
    exact ⟨(hst i).2, hround _ (hst i).1⟩
  refine ⟨?_, ?_, ?_⟩
  · intro c s' h
    have hc : env.cs.defaultConfig = c := congrArg Prod.fst h
    rw [← hc]
    exact ⟨hdv, hround _ hdn⟩
  · intro c s' h
    exact hsample c (random_config_is_sample env s c s' h)
  · intro c s' w h
    rcases get_config_cases env s maxT c s' w h with
      ⟨_, hc, _⟩ | ⟨st, rng', hopt, _⟩ | ⟨rng', hrand⟩
    · rw [hc]
      exact ⟨hdv, hround _ hdn⟩
    · obtain ⟨hv, _, _, j', pt, hdec⟩ :=
        optPath_found env s.results s.rng maxT c st rng' hopt
      have hdec' : assignLoop (env.stream j') env.cs.hpOrdering pt = some c :=
        hdec
      have hnames : c.map Prod.fst = env.cs.hpOrdering := by
        have h1 := assignLoop_names env.cs.hpOrdering pt (env.stream j') c
          (by intro k hk; rw [(hst j').1]; exact hk) hdec'
        rw [h1, (hst j').1]
      exact ⟨hv, hround _ hnames⟩
    · exact hsample c (random_config_is_sample env ⟨s.results, rng'⟩ c s' hrand)

/-- C8 witness: the default configuration of the concrete space. -/
theorem C8_witness :
    envC1.cs.isValid (cfg 0) = true ∧
    skopt2config envC1.cs (envC1.stream 0)
      (config2skopt envC1.cs.hpOrdering (cfg 0)) = some (cfg 0) := by
  have h := (C8_returned_valid_roundtrip envC1 ⟨[], 0⟩ 3
    ⟨by decide, rfl, rfl, fun i => ⟨rfl, rfl⟩⟩).1 (cfg 0)
    ⟨[(jsonDumps (cfg 0), 0)], 0⟩ rfl
  exact ⟨h.1, h.2 0⟩

end AutoGluon.SKoptSearcher
